import Mathlib

/-!
Verification development for the marine-engine anomaly-detection pipeline
(`autoencoder_5_min_31_pipeline_with_full_mlflow_logging.py`).

Each definition below is a shallow embedding of a specific piece of the
Python source; the source function and line numbers are recorded in the
doc comments.  Numeric cells use `Option ℚ` (`none` models a pandas
missing value / NaN), timestamps are integer epoch-seconds, and library
calls whose output the code merely consumes (sklearn clustering, the
StandardScaler/PCA residual, the precision-recall curve) are passed in
as explicit function or list parameters.
-/

namespace Pipeline

/-! ### Resampling / alignment stage (`data_preprocessor`, lines 447-480) -/

/-- Model of the `seconds` attribute of a pandas/Python `timedelta`, as read
by `df['dataTime'].diff().dt.seconds` (line 459).  A timedelta is normalised
to days plus a seconds-of-day component in `[0, 86400)`, so the attribute is
the gap taken modulo 86400 (floor convention, matching `Int.emod` for the
positive modulus). -/
def dtSeconds (delta : ℤ) : ℤ := delta % 86400

/-- Model of `input_df['dataTime'].diff().dt.seconds` (line 459): the first
row has no predecessor (`NaT`, modelled `none`); every later row carries the
seconds component of the gap to its predecessor. -/
def diffSeconds (times : List ℤ) : List (Option ℤ) :=
  (List.range times.length).map (fun i =>
    match i with
    | 0 => none
    | Nat.succ j => some (dtSeconds (times.getD (j+1) 0 - times.getD j 0)))

/-- Row indices selected into the high-frequency partition,
`input_df[diffs < 250]` (line 460).  A `NaN` diff compares `False`. -/
def highFreqRows (times : List ℤ) : List ℕ :=
  (List.range times.length).filter (fun i =>
    match (diffSeconds times).getD i none with
    | some s => decide (s < 250)
    | none => false)

/-- Row indices selected into the low-frequency partition,
`input_df[diffs > 250]` (line 461).  A `NaN` diff compares `False`. -/
def lowFreqRows (times : List ℤ) : List ℕ :=
  (List.range times.length).filter (fun i =>
    match (diffSeconds times).getD i none with
    | some s => decide (250 < s)
    | none => false)

/-- A row of the merged table just before the final dropna of the
resampling stage; only the two columns consulted by line 471 are named,
the remaining cells are carried opaquely. -/
structure PRow where
  foInTemp : Option ℚ
  rpm : Option ℚ
  rest : List (Option ℚ)
deriving DecidableEq

/-- Model of `updated_df.dropna(subset=['ME F.O. IN TEMP.', 'ME RPM'])`
(line 471).  pandas `dropna` with a column subset and its default
`how='any'` keeps a row only when **every** subset column is present. -/
def dropnaTempRpm (rows : List PRow) : List PRow :=
  rows.filter (fun r => r.foInTemp.isSome && r.rpm.isSome)

/-- Modelled from the spec: the drop step as claim C3 words it — a row is
dropped only when it is missing **both** the reference temperature and the
RPM reading, i.e. it is kept whenever at least one of the two is present. -/
def dropnaTempRpmClaim (rows : List PRow) : List PRow :=
  rows.filter (fun r => r.foInTemp.isSome || r.rpm.isSome)

/-! ### Range validation (`preprocess_remove_sensor_errors`, lines 484-534) -/

/-- A table in column-major form: each entry is a channel name with its
cells, one cell per row (matching a pandas DataFrame column). -/
abbrev Table := List (String × List (Option ℚ))

/-- The static channel range mapping `range_dict` (lines 489-521). -/
def rangeDict : List (String × ℚ × ℚ) :=
  [("ME COPT COND CSW IN TEMP", 0, 70),
   ("ME CYL. L.O IN TEMP.", 0, 90),
   ("ME EXH. GAS OUT TEMP.CYL. NO.1", 1/10, 600),
   ("ME EXH. GAS OUT TEMP.CYL. NO.2", 1/10, 600),
   ("ME EXH. GAS OUT TEMP.CYL. NO.3", 1/10, 600),
   ("ME EXH. GAS OUT TEMP.CYL. NO.4", 1/10, 600),
   ("ME EXH. GAS OUT TEMP.CYL. NO.5", 1/10, 600),
   ("ME EXH. GAS OUT TEMP.CYL. NO.6", 1/10, 600),
   ("ME T/C 1 EXH. GAS IN TEMP.", 0, 600),
   ("ME T/C 1  EXH. GAS OUT TEMP.", 0, 500),
   ("ME F.O IN PRESS", 0, 10),
   ("ME F.O. IN TEMP.", 0, 150),
   ("ME J.C.W OUT HIGH TEMP SLD.CYL.1", 0, 90),
   ("ME J.C.W OUT HIGH TEMP SLD.CYL.2", 0, 90),
   ("ME J.C.W OUT HIGH TEMP SLD.CYL.3", 0, 90),
   ("ME J.C.W OUT HIGH TEMP SLD.CYL.4", 0, 90),
   ("ME J.C.W OUT HIGH TEMP SLD.CYL.5", 0, 90),
   ("ME J.C.W OUT HIGH TEMP SLD.CYL.6", 0, 90),
   ("ME J.C.W IN PRESS", 0, 7/10),
   ("ME L.O IN PRESS", 0, 3/5),
   ("ME L.O IN TEMP.", 0, 80),
   ("SCAV. AIR PRESS IN AIR RECEIVER", -1, 7/2),
   ("ME SCAV. AIR TEMP.  IN SCAV.", 0, 60),
   ("ME SCAV. AIR FIRE DET. TEMP. HIGH PISTON CYL. NO.1 SLD", 15, 130),
   ("ME SCAV. AIR FIRE DET. TEMP. HIGH PISTON CYL. NO.2 SLD", 15, 130),
   ("ME SCAV. AIR FIRE DET. TEMP. HIGH PISTON CYL. NO.3 SLD", 15, 130),
   ("ME SCAV. AIR FIRE DET. TEMP. HIGH PISTON CYL. NO.4 SLD", 15, 130),
   ("ME SCAV. AIR FIRE DET. TEMP. HIGH PISTON CYL. NO.5 SLD", 15, 130),
   ("ME SCAV. AIR FIRE DET. TEMP. HIGH PISTON CYL. NO.6 SLD", 15, 130),
   ("ME SHAFT POWER", 0, 9000),
   ("ME RPM", -100, 99)]

/-- The out-of-range mask for one cell,
`(updated_df[col] < min_val) | (updated_df[col] > max_val)` (line 525).
A missing value compares `False` on both sides, so it is never flagged. -/
def oorCell (lo hi : ℚ) (v : Option ℚ) : Bool :=
  match v with
  | some x => decide (x < lo) || decide (hi < x)
  | none => false

/-- One cell after `updated_df.loc[out_of_range_mask, col] = np.nan`
(line 528): a flagged cell becomes missing, any other cell is unchanged. -/
def fixCell (lo hi : ℚ) (v : Option ℚ) : Option ℚ :=
  if oorCell lo hi v then none else v

/-- One whole column after the line-528 assignment. -/
def validateColumn (lo hi : ℚ) (cells : List (Option ℚ)) : List (Option ℚ) :=
  cells.map (fixCell lo hi)

/-- The per-channel replaced-value count `int(out_of_range_mask.sum())`
(line 526). -/
def oorCount (lo hi : ℚ) (cells : List (Option ℚ)) : ℕ :=
  (cells.filter (oorCell lo hi)).length

/-- One iteration of the line-524 loop applied to the table: the column
named `c` is validated, all other columns are untouched. -/
def applyRange (c : String) (lo hi : ℚ) (t : Table) : Table :=
  t.map (fun e => if e.1 == c then (e.1, validateColumn lo hi e.2) else e)

/-- Column access `updated_df[col]` on the column-major table (first match
by name; the pipeline's tables have unique column names). -/
def lookupCol (t : Table) (c : String) : List (Option ℚ) :=
  ((t.find? (fun e => e.1 == c)).map Prod.snd).getD []

/-- The full loop of lines 524-528 threading the mutated dataframe, also
returning the per-channel replaced counts in loop order (line 526). -/
def validateWithCounts (rd : List (String × ℚ × ℚ)) (t : Table) :
    Table × List ℕ :=
  rd.foldl
    (fun acc e =>
      (applyRange e.1 e.2.1 e.2.2 acc.1,
       acc.2 ++ [oorCount e.2.1 e.2.2 (lookupCol acc.1 e.1)]))
    (t, [])

/-- The table after `preprocess_remove_sensor_errors` (lines 484-534),
with its concrete `range_dict`. -/
def preprocess_remove_sensor_errors (t : Table) : Table :=
  (validateWithCounts rangeDict t).1

/-- The loop of lines 524-528 with the counts projected away (used to
state table-shape facts). -/
def applyAll (rd : List (String × ℚ × ℚ)) (t : Table) : Table :=
  rd.foldl (fun acc e => applyRange e.1 e.2.1 e.2.2 acc) t

/-! ### Steady-state segmentation (`steady_state_extraction_core`, lines 543-581) -/

/-- Exponential moving average `series.ewm(alpha=alpha).mean()` (line 544),
with the pandas default `adjust=True`:
`y_t = (Σ_{i≤t} (1-α)^i x_{t-i}) / (Σ_{i≤t} (1-α)^i)`. -/
def ewm (alpha : ℚ) (xs : List ℚ) : List ℚ :=
  (List.range xs.length).map (fun t =>
    (((List.range (t+1)).map (fun i => (1 - alpha)^i * xs.getD (t - i) 0)).sum)
    /
    (((List.range (t+1)).map (fun i => (1 - alpha)^i)).sum))

/-- The window start offsets `range(0, len(series_smoothed) - L + 1, step)`
(line 546); empty when fewer than `L` samples exist. -/
def windowStarts (L stp len : ℕ) : List ℕ :=
  if 1 ≤ stp ∧ L ≤ len then
    (List.range ((len - L) / stp + 1)).map (· * stp)
  else []

/-- The list of windows `series_smoothed.values[start:start+L]`
(lines 546-548). -/
def windowsOf (L stp : ℕ) (xs : List ℚ) : List (List ℚ) :=
  (windowStarts L stp xs.length).map (fun s => (xs.drop s).take L)

/-- The number of consecutive-sample transitions from state `i` to state
`j` inside a window's label sequence (the loop of lines 559-561). -/
def countPair (states : List ℕ) (i j : ℕ) : ℕ :=
  ((states.zip states.tail).filter (fun p => p.1 == i && p.2 == j)).length

/-- The r×r transition-count matrix `C` of lines 558-561; as in the
source, the states are the sklearn cluster ids `0, …, r-1`. -/
def transCount (states : List ℕ) (r : ℕ) : List (List ℕ) :=
  (List.range r).map (fun i => (List.range r).map (fun j => countPair states i j))

/-- Row normalisation of `C` into the transition probability matrix `P`
(lines 562-566): a row with positive sum is divided by its sum, a row
summing to zero stays all-zero. -/
def rowNormalize (C : List (List ℕ)) : List (List ℚ) :=
  C.map (fun row =>
    if 0 < row.sum then row.map (fun n => (n : ℚ) / (row.sum : ℚ))
    else row.map (fun _ => (0 : ℚ)))

/-- Binarisation `B = (P > 0).astype(np.uint8)` (line 568), as a boolean
image. -/
def binarize (P : List (List ℚ)) : List (List Bool) :=
  P.map (fun row => row.map (fun x => decide (0 < x)))

/-- The foreground pixels of a boolean image in raster (row-major) order. -/
def foregroundPixels (B : List (List Bool)) : List (ℕ × ℕ) :=
  (B.enum.map (fun e =>
    e.2.enum.filterMap (fun f => if f.2 then some (e.1, f.1) else none))).flatten

/-- 4-adjacency of two pixels (shared edge, not merely a corner). -/
def adj4 (p q : ℕ × ℕ) : Bool :=
  (p.1 == q.1 && (p.2 + 1 == q.2 || q.2 + 1 == p.2)) ||
  (p.2 == q.2 && (p.1 + 1 == q.1 || q.1 + 1 == p.1))

/-- Fuel-bounded flood fill: repeatedly moves the pixels of `rest` that
are 4-adjacent to the component grown so far into the component. -/
def growComp : ℕ → List (ℕ × ℕ) → List (ℕ × ℕ) → List (ℕ × ℕ) × List (ℕ × ℕ)
  | 0, comp, rest => (comp, rest)
  | Nat.succ fuel, comp, rest =>
    match rest.filter (fun q => comp.any (fun p => adj4 p q)) with
    | [] => (comp, rest)
    | newly =>
      growComp fuel (comp ++ newly)
        (rest.filter (fun q => !(comp.any (fun p => adj4 p q))))

/-- Repeatedly extracts one 4-connected component, seeded by the first
remaining pixel in raster order (so components are listed in the order
`cv2.connectedComponents` numbers its labels). -/
def componentsAux : ℕ → List (ℕ × ℕ) → List (List (ℕ × ℕ))
  | 0, _ => []
  | _, [] => []
  | Nat.succ fuel, p :: rest =>
    (growComp rest.length [p] rest).1 ::
      componentsAux fuel (growComp rest.length [p] rest).2

/-- Model of `cv2.connectedComponents(B, connectivity=4)` (line 569): the
4-connected components of the foreground pixels of the image `B`, listed
in label order; component sizes are the `np.bincount(...)[1:]` counts of
line 570. -/
def connectedComponents4 (B : List (List Bool)) : List (List (ℕ × ℕ)) :=
  componentsAux (foregroundPixels B).length (foregroundPixels B)

/-- Tail of `np.argmax`: scans the remaining list keeping the first
maximal value seen so far and its index in the original list. -/
def argmaxP {α : Type} [LinearOrder α] : List α → α → ℕ → ℕ → α × ℕ
  | [], bv, bi, _ => (bv, bi)
  | x :: xs, bv, bi, i =>
    if bv < x then argmaxP xs x i (i+1) else argmaxP xs bv bi (i+1)

/-- `np.argmax`: index of the first maximal element (0 on the empty list,
where numpy would raise). -/
def argmaxIdx {α : Type} [LinearOrder α] (xs : List α) : ℕ :=
  match xs with
  | [] => 0
  | x :: t => (argmaxP t x 0 1).2

/-- The per-window label of lines 552-572, starting from the cluster-label
sequence `states` returned by the clustering call: a single discovered
cluster labels the window 1; otherwise the transition matrix is built,
normalised, binarised, its 4-connected image components are counted, and
the window is labelled with 1 + the index of the largest component
(first-won tie-break), or 0 when there is no component at all. -/
def windowLabelOf (states : List ℕ) : ℕ :=
  if states.dedup.length = 1 then 1
  else
    match (connectedComponents4
      (binarize (rowNormalize (transCount states states.dedup.length)))).map
        List.length with
    | [] => 0
    | c :: cs => argmaxIdx (c :: cs) + 1

/-- The per-sample consensus labels of lines 574-580 for one sample index
`t`: the labels of the windows covering `t` (indices from
`max(0, t-L+1)` to `min(t, len(windows)-1)`); the sample keeps the common
label when all covering windows agree, otherwise 0. -/
def coveringLabels (seq : List ℕ) (W L t : ℕ) : List ℕ :=
  ((List.range W).filter (fun i : ℕ =>
    decide (max 0 ((t : ℤ) - (L : ℤ) + 1) ≤ (i : ℤ)) &&
    decide ((i : ℤ) ≤ min (t : ℤ) ((W : ℤ) - 1)))).map (fun i => seq.getD i 0)

/-- Line 580: the final label of sample `t`. -/
def labelAt (seq : List ℕ) (W L t : ℕ) : ℕ :=
  match coveringLabels seq W L t with
  | [] => 0
  | h :: rest => if (h :: rest).all (· == h) then h else 0

/-- `steady_state_extraction_core` (lines 543-581).  The per-window
sklearn call `AgglomerativeClustering(n_clusters=None,
distance_threshold=distance_threshold).fit_predict` (lines 552-553) is a
library black box and is passed in as the function `cluster`, which maps
a window to its cluster-label sequence. -/
def steady_state_extraction_core (cluster : List ℚ → List ℕ) (alpha : ℚ)
    (L stp : ℕ) (series : List ℚ) : List ℕ :=
  (List.range (ewm alpha series).length).map
    (fun t =>
      labelAt ((windowsOf L stp (ewm alpha series)).map (fun w => windowLabelOf (cluster w)))
        (windowsOf L stp (ewm alpha series)).length L t)

/-- The all-zero-labels clustering model: on a window of identical values
hierarchical clustering merges everything below any positive distance
threshold, so `fit_predict` returns one cluster labelled 0 for every
sample.  Used to instantiate `cluster` on flat inputs. -/
def clusterConst : List ℚ → List ℕ := fun w => List.replicate w.length 0

/-- Claim C1's alternation hypothesis: every state is one of the two
cluster ids 0 and 1, and consecutive samples always change state
(`A,B,A,B,...`). -/
def Alternating01 (s : List ℕ) : Prop :=
  (∀ x ∈ s, x < 2) ∧ ∀ p ∈ s.zip s.tail, p.1 ≠ p.2

/-- Off-diagonal dominance of a square count matrix: in every row the
diagonal entry is strictly smaller than the total off-diagonal mass. -/
def offDiagDominant (C : List (List ℕ)) : Prop :=
  ∀ i < C.length, (C.getD i []).getD i 0 < (C.getD i []).sum - (C.getD i []).getD i 0

/-! ### Outlier filtering (`further_filtering`, lines 602-642) -/

/-- A row reaching the outlier-filtering stage; the two columns consulted
by lines 614-615 are named, the remaining feature cells are carried
opaquely. -/
structure SRow where
  power : Option ℚ
  cyl1temp : Option ℚ
  rest : List (Option ℚ)
deriving DecidableEq

/-- Line 614, `steady_df[steady_df['ME SHAFT POWER'] > 3500]`: a row is
kept only when its shaft power is present and strictly above 3500 (a
missing value compares `False`). -/
def passPower (r : SRow) : Bool :=
  match r.power with
  | some p => decide (3500 < p)
  | none => false

/-- Line 615, the cylinder-1 exhaust-temperature filter at 260. -/
def passCyl1 (r : SRow) : Bool :=
  match r.cyl1temp with
  | some x => decide (260 < x)
  | none => false

/-- Line 616, `steady_df.dropna()`: every cell of the row is present. -/
def rowComplete (r : SRow) : Bool :=
  r.power.isSome && r.cyl1temp.isSome && r.rest.all Option.isSome

/-- `np.percentile(xs, 99)` (line 628) with numpy's default linear
interpolation: with the values sorted ascending and
`h = (n-1) * 99/100`, the result is
`a⌊h⌋ + (h - ⌊h⌋) * (a⌊h⌋₊₁ - a⌊h⌋)`. -/
def percentile99 (xs : List ℚ) : ℚ :=
  match xs with
  | [] => 0
  | _ :: _ =>
    (((xs.mergeSort (fun a b => decide (a ≤ b))).getD (⌊((xs.length - 1 : ℕ) : ℚ) * 99 / 100⌋).toNat 0)
     +
     ((((xs.length - 1 : ℕ) : ℚ) * 99 / 100) - ((⌊((xs.length - 1 : ℕ) : ℚ) * 99 / 100⌋).toNat : ℚ))
     * (((xs.mergeSort (fun a b => decide (a ≤ b))).getD ((⌊((xs.length - 1 : ℕ) : ℚ) * 99 / 100⌋).toNat + 1)
          ((xs.mergeSort (fun a b => decide (a ≤ b))).getD (⌊((xs.length - 1 : ℕ) : ℚ) * 99 / 100⌋).toNat 0))
        - ((xs.mergeSort (fun a b => decide (a ≤ b))).getD (⌊((xs.length - 1 : ℕ) : ℚ) * 99 / 100⌋).toNat 0)))

/-- `further_filtering` (lines 602-642).  The composite library call of
lines 618-626 — StandardScaler fit/transform, 15-component PCA fit,
inverse transform and per-row mean squared residual — is passed in as the
function `resid`, which maps the surviving batch to its per-row
reconstruction errors (positionally aligned, as the numpy boolean mask of
line 629 is). -/
def further_filtering (resid : List SRow → List ℚ) (df : List SRow) : List SRow :=
  (((((df.filter passPower).filter passCyl1).filter rowComplete).zip
      (resid (((df.filter passPower).filter passCyl1).filter rowComplete))).filter
    (fun pr => decide (pr.2 ≤ percentile99 (resid (((df.filter passPower).filter passCyl1).filter rowComplete))))).map
    Prod.fst

/-- A value strictly below a threshold (missing counts as not below). -/
def belowThr (thr : ℚ) (v : Option ℚ) : Bool :=
  match v with
  | some x => decide (x < thr)
  | none => false

/-- Modelled from the spec: the outlier filter as claim C6 words it — a
row is dropped iff its shaft power is **strictly below** 3500, or its
cylinder-1 temperature is **strictly below** 260, or it has a missing
value, or its residual exceeds the batch's 99th percentile. -/
def further_filteringClaim (resid : List SRow → List ℚ) (df : List SRow) : List SRow :=
  (((df.filter (fun r => !(belowThr 3500 r.power) && !(belowThr 260 r.cyl1temp) && rowComplete r)).zip
      (resid (df.filter (fun r => !(belowThr 3500 r.power) && !(belowThr 260 r.cyl1temp) && rowComplete r)))).filter
    (fun pr => decide (pr.2 ≤ percentile99 (resid (df.filter (fun r => !(belowThr 3500 r.power) && !(belowThr 260 r.cyl1temp) && rowComplete r)))))).map
    Prod.fst

/-- The amended early filter: a row survives lines 614-616 iff its shaft
power is present and above 3500, its cylinder-1 temperature is present
and above 260, and no cell is missing (equivalently: it is dropped iff
the power is at or below 3500 or missing, or the temperature is at or
below 260 or missing, or any value is missing). -/
def further_filteringAmended (resid : List SRow → List ℚ) (df : List SRow) : List SRow :=
  (((df.filter (fun r => passPower r && passCyl1 r && rowComplete r)).zip
      (resid (df.filter (fun r => passPower r && passCyl1 r && rowComplete r)))).filter
    (fun pr => decide (pr.2 ≤ percentile99 (resid (df.filter (fun r => passPower r && passCyl1 r && rowComplete r)))))).map
    Prod.fst

/-- The constant-zero residual model (any batch gets residual 0 per row),
used to instantiate `resid` on concrete inputs. -/
def residZero : List SRow → List ℚ := fun l => List.replicate l.length 0

/-! ### Evaluation stage (`evaluate_autoencoder_step`, lines 816-1002) -/

/-- The threshold sweep of lines 876-879: `f1_scores` over all candidate
thresholds of the precision-recall curve,
`2 * (P[:-1] * R[:-1]) / (P[:-1] + R[:-1] + 1e-12)`. -/
def f1_scores (precisions recalls : List ℚ) : List ℚ :=
  (precisions.dropLast.zip recalls.dropLast).map
    (fun pr => 2 * (pr.1 * pr.2) / (pr.1 + pr.2 + 1 / 1000000000000))

/-- `best_idx = int(np.argmax(f1_scores))` (line 877). -/
def bestIdx (precisions recalls : List ℚ) : ℕ :=
  argmaxIdx (f1_scores precisions recalls)

/-- `best_threshold = float(thresholds[best_idx])` (line 878). -/
def best_threshold (precisions recalls thresholds : List ℚ) : ℚ :=
  thresholds.getD (bestIdx precisions recalls) 0

/-- `best_f1 = float(f1_scores[best_idx])` (line 879): the F1 score the
code reports at the reported best threshold. -/
def best_f1 (precisions recalls : List ℚ) : ℚ :=
  (f1_scores precisions recalls).getD (bestIdx precisions recalls) 0

/-- The column plumbing of the evaluation step (lines 840-859) on the
column names alone: `anomCols` are the (renamed) columns of the labelled
anomaly table, `normCols` the columns of the sampled normal table (the
training schema `final_df1.columns`), `dropCols` the configured drop
list, and `aCol` the anomaly annotation column.  Returns the feature
schema `final_df1.columns` on success, or the KeyError pandas raises:
at line 854 if the annotation column was dropped, or at line 859
(`X = X[final_df1.columns]`) if some training column did not survive
the intersection. -/
def evalFeatureColumns (anomCols normCols dropCols : List String)
    (aCol : String) : Except String (List String) :=
  -- line 840: common_cols = list(set(anomalies) & set(normals))
  let common := anomCols.filter (fun c => decide (c ∈ normCols))
  -- lines 841-842: re-append the annotation column if intersected away
  let common2 :=
    if ¬ (aCol ∈ common) ∧ aCol ∈ anomCols then common ++ [aCol] else common
  -- lines 843-847: both frames are cut to common2 (normals get aCol = NaN),
  -- so the concatenated test_data has exactly the columns common2 (plus
  -- aCol when it was absent even from the anomaly frame)
  let testCols := if aCol ∈ common2 then common2 else common2 ++ [aCol]
  -- lines 851-852: actually_dropped and the drop
  let testCols2 :=
    testCols.filter (fun c => decide (c ∉ dropCols.filter (fun d => decide (d ∈ testCols))))
  -- line 854: test_data[anomaly_col]
  if aCol ∈ testCols2 then
    -- line 858: X = test_data.drop(columns=[anomaly_col])
    -- line 859: X = X[final_df1.columns]
    if ∀ c ∈ normCols, c ∈ testCols2.filter (fun x => decide (x ≠ aCol)) then
      Except.ok normCols
    else Except.error "KeyError: training column missing from test data"
  else Except.error "KeyError: anomaly column"

/-! ## Theorems -/

/-! ### Claim C3: the dropna after concatenation -/

/-- Claim C3 as stated is false: a row carrying the reference temperature
but missing the RPM reading is dropped by line 471 (pandas `dropna` with
`how='any'` over the subset), while the claim says a row missing only one
of the two readings is retained. -/
theorem c3_counterexample :
    dropnaTempRpm [⟨some 50, none, []⟩] = [] ∧
    dropnaTempRpmClaim [⟨some 50, none, []⟩] = [⟨some 50, none, []⟩] := by
  constructor <;> rfl

/-- Claim C3 (amended): after concatenating the resampled high-frequency
partition with the low-frequency partition, a row is retained by the
dropna of line 471 iff it has **both** the reference temperature reading
and the RPM reading; a row missing either one (or both) is dropped. -/
theorem c3_dropna_amended (rows : List PRow) (r : PRow) :
    r ∈ dropnaTempRpm rows ↔
      r ∈ rows ∧ r.foInTemp.isSome = true ∧ r.rpm.isSome = true := by
  simp [dropnaTempRpm, List.mem_filter, and_assoc]

/-! ### Claims C4 and C10: the cadence partition -/

lemma diffSeconds_length (times : List ℤ) :
    (diffSeconds times).length = times.length := by
  simp [diffSeconds]

lemma diffSeconds_getD_zero (times : List ℤ) :
    (diffSeconds times).getD 0 none = none := by
  cases times with
  | nil => rfl
  | cons a t =>
    have h0 : 0 < (diffSeconds (a :: t)).length := by
      rw [diffSeconds_length]; exact Nat.succ_pos _
    rw [List.getD_eq_getElem _ _ h0]
    simp [diffSeconds]

lemma diffSeconds_getD_succ (times : List ℤ) (i : ℕ) (h : i + 1 < times.length) :
    (diffSeconds times).getD (i+1) none
      = some (dtSeconds (times.getD (i+1) 0 - times.getD i 0)) := by
  have h1 : i + 1 < (diffSeconds times).length := by rw [diffSeconds_length]; exact h
  rw [List.getD_eq_getElem _ _ h1]
  simp [diffSeconds]

/-- Claim C4 as stated is false: the code classifies by
`diff().dt.seconds`, the seconds-of-day component of the gap, not the
true elapsed time.  Two consecutive timestamps 86410 seconds apart (one
day and ten seconds, well above 250 s) land in the **high**-frequency
partition and not in the low-frequency one. -/
theorem c4_counterexample :
    (250 : ℤ) < 86410 - 0 ∧
    highFreqRows [0, 86410] = [1] ∧
    lowFreqRows [0, 86410] = [] := by
  refine ⟨by decide, by rfl, by rfl⟩

/-- Claim C4 (amended): the partition tests the seconds-of-day component
`(gap mod 86400)` of the gap against 250, so it agrees with the
true-elapsed-time rule exactly when the gap is nonnegative and under one
day: in that regime a row goes to the high-frequency partition iff its
gap is below 250 s and to the low-frequency partition iff its gap is
above 250 s. -/
theorem c4_gap_classification (times : List ℤ) (i : ℕ)
    (hi : i + 1 < times.length)
    (h0 : 0 ≤ times.getD (i+1) 0 - times.getD i 0)
    (h1 : times.getD (i+1) 0 - times.getD i 0 < 86400) :
    ((i + 1) ∈ highFreqRows times ↔ times.getD (i+1) 0 - times.getD i 0 < 250) ∧
    ((i + 1) ∈ lowFreqRows times ↔ 250 < times.getD (i+1) 0 - times.getD i 0) := by
  have hmod : dtSeconds (times.getD (i+1) 0 - times.getD i 0)
      = times.getD (i+1) 0 - times.getD i 0 := by
    unfold dtSeconds
    exact Int.emod_eq_of_lt h0 h1
  constructor
  · rw [highFreqRows, List.mem_filter]
    rw [diffSeconds_getD_succ times i hi, hmod]
    simp [List.mem_range, hi]
  · rw [lowFreqRows, List.mem_filter]
    rw [diffSeconds_getD_succ times i hi, hmod]
    simp [List.mem_range, hi]

/-- Witness for the amended claim C4 at a concrete table: two timestamps
60 seconds apart. -/
theorem c4_witness :
    (((0:ℕ) + 1) ∈ highFreqRows [0, 60] ↔
        ([0, 60] : List ℤ).getD 1 0 - ([0, 60] : List ℤ).getD 0 0 < 250) ∧
    (((0:ℕ) + 1) ∈ lowFreqRows [0, 60] ↔
        250 < ([0, 60] : List ℤ).getD 1 0 - ([0, 60] : List ℤ).getD 0 0) :=
  c4_gap_classification [0, 60] 0 (by decide) (by decide) (by decide)

/-- Claim C10: the cadence partition is not exhaustive.  The first row
(whose diff is `NaT`, so both comparisons are `False`) is in neither
partition, and any row whose true gap to its predecessor is exactly 250
seconds is in neither partition, hence silently excluded from the
stage's output. -/
theorem c10_partition_gaps (times : List ℤ) :
    ((0:ℕ) ∉ highFreqRows times ∧ (0:ℕ) ∉ lowFreqRows times) ∧
    ∀ i, i + 1 < times.length →
      times.getD (i+1) 0 - times.getD i 0 = 250 →
      (i + 1) ∉ highFreqRows times ∧ (i + 1) ∉ lowFreqRows times := by
  constructor
  · constructor
    · rw [highFreqRows, List.mem_filter]
      rw [diffSeconds_getD_zero]
      simp
    · rw [lowFreqRows, List.mem_filter]
      rw [diffSeconds_getD_zero]
      simp
  · intro i hi hgap
    have hmod : dtSeconds (times.getD (i+1) 0 - times.getD i 0) = 250 := by
      rw [hgap]; decide
    constructor
    · rw [highFreqRows, List.mem_filter]
      rw [diffSeconds_getD_succ times i hi, hmod]
      simp
    · rw [lowFreqRows, List.mem_filter]
      rw [diffSeconds_getD_succ times i hi, hmod]
      simp

/-- Witness for claim C10 at a concrete table with two exact-250-second
gaps: the first row and the gap-250 row are excluded from both
partitions. -/
theorem c10_witness :
    ((0:ℕ) ∉ highFreqRows [0, 250, 500] ∧ (0:ℕ) ∉ lowFreqRows [0, 250, 500]) ∧
    ((0:ℕ) + 1 ∉ highFreqRows [0, 250, 500] ∧
     (0:ℕ) + 1 ∉ lowFreqRows [0, 250, 500]) :=
  ⟨(c10_partition_gaps [0, 250, 500]).1,
   (c10_partition_gaps [0, 250, 500]).2 0 (by decide) (by decide)⟩

/-! ### Claim C7: the F1-maximising threshold sweep -/

lemma argmaxP_ub {α : Type} [LinearOrder α] (l : List α) :
    ∀ (bv : α) (bi i : ℕ),
      bv ≤ (argmaxP l bv bi i).1 ∧ ∀ x ∈ l, x ≤ (argmaxP l bv bi i).1 := by
  induction l with
  | nil => intro bv bi i; exact ⟨le_refl _, by simp⟩
  | cons x xs ih =>
    intro bv bi i
    by_cases h : bv < x
    · rw [argmaxP, if_pos h]
      refine ⟨le_of_lt (lt_of_lt_of_le h (ih x i (i+1)).1), ?_⟩
      intro y hy
      rcases List.mem_cons.1 hy with hy1 | hy2
      · rw [hy1]; exact (ih x i (i+1)).1
      · exact (ih x i (i+1)).2 y hy2
    · rw [argmaxP, if_neg h]
      refine ⟨(ih bv bi (i+1)).1, ?_⟩
      intro y hy
      rcases List.mem_cons.1 hy with hy1 | hy2
      · rw [hy1]; exact le_trans (not_lt.1 h) (ih bv bi (i+1)).1
      · exact (ih bv bi (i+1)).2 y hy2

lemma argmaxP_getD {α : Type} [LinearOrder α] (d : α) (l : List α) :
    ∀ (full : List α) (bv : α) (bi i : ℕ),
      full.getD bi d = bv →
      (∀ j, j < l.length → full.getD (i + j) d = l.getD j d) →
      full.getD (argmaxP l bv bi i).2 d = (argmaxP l bv bi i).1 := by
  induction l with
  | nil => intro full bv bi i hbase _; exact hbase
  | cons x xs ih =>
    intro full bv bi i hbase hoff
    have hx : full.getD i d = x := by
      have := hoff 0 (Nat.succ_pos _)
      simpa using this
    have hoffs : ∀ j, j < xs.length → full.getD (i + 1 + j) d = xs.getD j d := by
      intro j hj
      have := hoff (j + 1) (by rw [List.length_cons]; omega)
      have harith : i + (j + 1) = i + 1 + j := by omega
      rw [harith] at this
      simpa using this
    by_cases h : bv < x
    · rw [argmaxP, if_pos h]
      exact ih full x i (i+1) hx hoffs
    · rw [argmaxP, if_neg h]
      exact ih full bv bi (i+1) hbase hoffs

lemma argmax_getD_ub {α : Type} [LinearOrder α] (xs : List α) (d : α) :
    ∀ x ∈ xs, x ≤ xs.getD (argmaxIdx xs) d := by
  cases xs with
  | nil => simp
  | cons x t =>
    intro y hy
    have hval : (x :: t).getD (argmaxP t x 0 1).2 d = (argmaxP t x 0 1).1 := by
      refine argmaxP_getD d t (x :: t) x 0 1 (by simp) ?_
      intro j hj
      have harith : 1 + j = j + 1 := by omega
      rw [harith]
      simp
    rw [argmaxIdx, hval]
    rcases List.mem_cons.1 hy with hy1 | hy2
    · rw [hy1]; exact (argmaxP_ub t x 0 1).1
    · exact (argmaxP_ub t x 0 1).2 y hy2

/-- Claim C7: the reported best threshold attains the maximum F1 score
over all candidate thresholds of the precision-recall curve — for every
candidate index `i`, the F1 score the sweep computes at the reported
threshold (`best_f1`, the score at `thresholds[best_idx]`) is at least
the F1 score at candidate `i`.  The two length hypotheses are sklearn's
`precision_recall_curve` contract (`len(precision) = len(thresholds)+1`,
recalls of equal length). -/
theorem c7_best_threshold (precisions recalls thresholds : List ℚ)
    (hP : precisions.length = thresholds.length + 1)
    (hR : recalls.length = precisions.length)
    (i : ℕ) (hi : i < thresholds.length) :
    (f1_scores precisions recalls).getD i 0 ≤ best_f1 precisions recalls := by
  have hlen : (f1_scores precisions recalls).length = thresholds.length := by
    simp [f1_scores, hP, hR]
  have hilt : i < (f1_scores precisions recalls).length := by rw [hlen]; exact hi
  have hmem : (f1_scores precisions recalls).getD i 0 ∈ f1_scores precisions recalls := by
    rw [List.getD_eq_getElem _ _ hilt]
    exact List.getElem_mem hilt
  exact argmax_getD_ub (f1_scores precisions recalls) 0 _ hmem

/-- Witness for claim C7 on a concrete three-point precision-recall
curve with two candidate thresholds. -/
theorem c7_witness :
    (f1_scores [1/2, 1, 1] [1, 1/2, 0]).getD 0 0 ≤ best_f1 [1/2, 1, 1] [1, 1/2, 0] :=
  c7_best_threshold [1/2, 1, 1] [1, 1/2, 0] [3, 5] (by decide) (by decide) 0 (by decide)

/-! ### Claim C8: evaluation column alignment -/

/-- Claim C8 as stated is false: with anomaly columns
`{Anomaly Reason, p}` and training/normal columns `{p, q}` the two
column sets do not fully overlap, and the evaluation step does **not**
complete — after cutting to the intersection, the realignment
`X = X[final_df1.columns]` (line 859) requests the missing column `q`
and raises a KeyError. -/
theorem c8_counterexample :
    ¬ (∀ c ∈ (["p", "q"] : List String), c ∈ (["Anomaly Reason", "p"] : List String)) ∧
    evalFeatureColumns ["Anomaly Reason", "p"] ["p", "q"] [] "Anomaly Reason"
      = Except.error "KeyError: training column missing from test data" := by
  exact ⟨by decide, by rfl⟩

/-- Claim C8 (amended): given that the anomaly annotation column is
present in the anomaly table and is neither a training column nor in the
drop list, the evaluation step completes (aligning the test features to
the training schema, which then all lie in the column intersection)
**iff** every training column also appears among the anomaly columns and
escapes the drop list; when the normal/training side has a column the
anomaly table lacks, the realignment of line 859 raises instead. -/
theorem c8_eval_columns (A N D : List String) (a : String)
    (ha : a ∈ A) (haN : a ∉ N) (haD : a ∉ D) :
    evalFeatureColumns A N D a = Except.ok N ↔ ∀ c ∈ N, c ∈ A ∧ c ∉ D := by
  have hcommon : a ∉ A.filter (fun c => decide (c ∈ N)) := by
    intro hmem
    exact haN (of_decide_eq_true (List.mem_filter.1 hmem).2)
  rw [evalFeatureColumns]
  simp only [hcommon, ha, not_false_iff, true_and, if_true, and_self]
  have hc2 : a ∈ A.filter (fun c => decide (c ∈ N)) ++ [a] := by
    simp
  rw [if_pos hc2]
  set tc := A.filter (fun c => decide (c ∈ N)) ++ [a] with htc
  have hmemtc : ∀ c, c ∈ tc ↔ (c ∈ A ∧ c ∈ N) ∨ c = a := by
    intro c
    rw [htc]
    simp [List.mem_filter]
  have hmemtc2 : ∀ c, c ∈ tc.filter (fun c => decide (c ∉ D.filter (fun d => decide (d ∈ tc))))
      ↔ c ∈ tc ∧ ¬(c ∈ D ∧ c ∈ tc) := by
    intro c
    simp only [List.mem_filter, decide_eq_true_eq, List.mem_filter, not_and]
  have hatc2 : a ∈ tc.filter (fun c => decide (c ∉ D.filter (fun d => decide (d ∈ tc)))) := by
    rw [hmemtc2]
    refine ⟨hc2, ?_⟩
    intro hcontra
    exact haD hcontra.1
  rw [if_pos hatc2]
  by_cases hall : ∀ c ∈ N,
      c ∈ (tc.filter (fun c => decide (c ∉ D.filter (fun d => decide (d ∈ tc))))).filter
        (fun x => decide (x ≠ a))
  · rw [if_pos hall]
    refine ⟨fun _ => ?_, fun _ => rfl⟩
    intro c hc
    have h1 := hall c hc
    rw [List.mem_filter] at h1
    have h2 := (hmemtc2 c).1 h1.1
    have h3 := (hmemtc c).1 h2.1
    have hca : c ≠ a := fun h => haN (h ▸ hc)
    rcases h3 with h3 | h3
    · exact ⟨h3.1, fun hd => h2.2 ⟨hd, h2.1⟩⟩
    · exact absurd h3 hca
  · rw [if_neg hall]
    constructor
    · intro h; exact absurd h (by simp)
    · intro h
      exfalso
      apply hall
      intro c hc
      have hca : c ≠ a := fun heq => haN (heq ▸ hc)
      rw [List.mem_filter]
      refine ⟨?_, by simpa using hca⟩
      rw [hmemtc2]
      refine ⟨(hmemtc c).2 (Or.inl ⟨(h c hc).1, hc⟩), ?_⟩
      intro hcontra
      exact (h c hc).2 hcontra.1

/-- Witness for the amended claim C8 at a concrete schema where the
anomaly columns cover the training columns and the drop list misses
them, so evaluation completes on the intersection. -/
theorem c8_witness :
    (evalFeatureColumns ["Anomaly Reason", "p", "q"] ["p", "q"] ["z"] "Anomaly Reason"
        = Except.ok ["p", "q"] ↔
      ∀ c ∈ (["p", "q"] : List String),
        c ∈ (["Anomaly Reason", "p", "q"] : List String) ∧ c ∉ (["z"] : List String)) :=
  c8_eval_columns ["Anomaly Reason", "p", "q"] ["p", "q"] ["z"] "Anomaly Reason"
    (by decide) (by decide) (by decide)

/-! ### Claim C6: the outlier filter -/

lemma percentile99_single (x : ℚ) : percentile99 [x] = x := by
  have hms : ([x] : List ℚ).mergeSort (fun a b => decide (a ≤ b)) = [x] := by
    simp [List.mergeSort]
  rw [percentile99]
  rw [hms]
  norm_num

/-- Claim C6 as stated is false at the threshold boundary: a complete
row with shaft power exactly 3500 (and cylinder-1 temperature 300) is
dropped by line 614 (`> 3500` keeps only strictly larger values), while
the claim's characterisation — dropped iff power **below** 3500, or
temperature below 260, or a missing value, or residual above the batch
99th percentile — would retain it. -/
theorem c6_counterexample :
    further_filtering residZero [⟨some 3500, some 300, []⟩] = [] ∧
    further_filteringClaim residZero [⟨some 3500, some 300, []⟩]
      = [⟨some 3500, some 300, []⟩] := by
  constructor
  · have hp : passPower ⟨some 3500, some 300, []⟩ = false := by
      simp [passPower]
    simp [further_filtering, hp]
  · have h1 : belowThr 3500 (some 3500) = false := by
      simp [belowThr]
    have h2 : belowThr 260 (some 300) = false := by
      simp [belowThr]
      norm_num
    have h3 : rowComplete ⟨some 3500, some 300, []⟩ = true := by
      simp [rowComplete]
    have hfil : ([⟨some 3500, some 300, []⟩] : List SRow).filter
        (fun r => !(belowThr 3500 r.power) && !(belowThr 260 r.cyl1temp) && rowComplete r)
        = [⟨some 3500, some 300, []⟩] := by
      simp [List.filter, h1, h2, h3]
    rw [further_filteringClaim, hfil]
    simp [residZero, percentile99_single]

/-- Claim C6 (amended): the outlier-filtering stage retains exactly the
rows passing all four filters with the code's boundary semantics — a row
is dropped iff its shaft power is at or below 3500 or missing, or its
cylinder-1 exhaust temperature is at or below 260 or missing, or any of
its values is missing, or its PCA reconstruction residual exceeds the
99th percentile of the residuals of the batch surviving the first three
filters.  Formally, the three sequential filters of lines 614-616 fuse
into the single conjunctive filter, followed by the positional
residual-percentile cut of lines 628-629. -/
theorem c6_filter_amended (resid : List SRow → List ℚ) (df : List SRow) :
    further_filtering resid df = further_filteringAmended resid df := by
  have hfuse : ((df.filter passPower).filter passCyl1).filter rowComplete
      = df.filter (fun r => passPower r && passCyl1 r && rowComplete r) := by
    rw [List.filter_filter, List.filter_filter]
    apply List.filter_congr
    intro r _
    cases passPower r <;> cases passCyl1 r <;> cases rowComplete r <;> rfl
  rw [further_filtering, further_filteringAmended, hfuse]

/-! ### Claims C5 and C9: range validation -/

lemma validateColumn_length (lo hi : ℚ) (cells : List (Option ℚ)) :
    (validateColumn lo hi cells).length = cells.length := by
  simp [validateColumn]

lemma lookupCol_cons (e : String × List (Option ℚ)) (t : Table) (c : String) :
    lookupCol (e :: t) c = if e.1 == c then e.2 else lookupCol t c := by
  by_cases h : e.1 == c
  · simp [lookupCol, List.find?_cons_of_pos, h]
  · rw [if_neg h]
    simp only [lookupCol]
    rw [List.find?_cons_of_neg]
    simpa using h

lemma applyRange_cons (c : String) (lo hi : ℚ) (e : String × List (Option ℚ)) (t : Table) :
    applyRange c lo hi (e :: t)
      = (if e.1 == c then (e.1, validateColumn lo hi e.2) else e) :: applyRange c lo hi t := by
  simp [applyRange]

lemma lookupCol_applyRange_same (c : String) (lo hi : ℚ) (t : Table) :
    lookupCol (applyRange c lo hi t) c = validateColumn lo hi (lookupCol t c) := by
  induction t with
  | nil => simp [applyRange, lookupCol, validateColumn]
  | cons e t ih =>
    rw [applyRange_cons]
    by_cases h : e.1 == c
    · rw [if_pos h, lookupCol_cons, lookupCol_cons, if_pos h]
      simp [h]
    · rw [if_neg h, lookupCol_cons, lookupCol_cons, if_neg h, if_neg h]
      exact ih

lemma lookupCol_applyRange_ne (c c2 : String) (lo hi : ℚ) (t : Table)
    (hne : c2 ≠ c) :
    lookupCol (applyRange c2 lo hi t) c = lookupCol t c := by
  induction t with
  | nil => rfl
  | cons e t ih =>
    rw [applyRange_cons]
    by_cases h : e.1 == c2
    · have hec : (e.1 == c) = false := by
        have he2 : e.1 = c2 := by simpa using h
        simp [he2, hne]
      rw [if_pos h, lookupCol_cons, lookupCol_cons]
      simp only [hec, if_false]
      exact ih
    · rw [if_neg h, lookupCol_cons, lookupCol_cons]
      by_cases hec : e.1 == c
      · rw [if_pos hec, if_pos hec]
      · rw [if_neg hec, if_neg hec]
        exact ih

lemma applyAll_cons (e : String × ℚ × ℚ) (rd : List (String × ℚ × ℚ)) (t : Table) :
    applyAll (e :: rd) t = applyAll rd (applyRange e.1 e.2.1 e.2.2 t) := rfl

lemma lookupCol_applyAll_ne : ∀ (rd : List (String × ℚ × ℚ)) (t : Table) (c : String),
    (∀ e ∈ rd, e.1 ≠ c) → lookupCol (applyAll rd t) c = lookupCol t c := by
  intro rd
  induction rd with
  | nil => intro t c _; rfl
  | cons e rest ih =>
    intro t c h
    rw [applyAll_cons, ih _ c (fun f hf => h f (List.mem_cons_of_mem e hf))]
    exact lookupCol_applyRange_ne c e.1 e.2.1 e.2.2 t (h e (List.mem_cons_self e rest))

lemma lookupCol_applyAll_mem : ∀ (rd : List (String × ℚ × ℚ)) (t : Table)
    (c : String) (lo hi : ℚ),
    (rd.map Prod.fst).Nodup → (c, lo, hi) ∈ rd →
    lookupCol (applyAll rd t) c = validateColumn lo hi (lookupCol t c) := by
  intro rd
  induction rd with
  | nil => intro t c lo hi _ hmem; cases hmem
  | cons e rest ih =>
    intro t c lo hi hnd hmem
    rw [List.map_cons, List.nodup_cons] at hnd
    rw [applyAll_cons]
    rcases List.mem_cons.1 hmem with heq | hrest
    · have hec : e.1 = c := by rw [← heq]
      have hkeys : ∀ f ∈ rest, f.1 ≠ c := by
        intro f hf hfc
        apply hnd.1
        rw [hec, ← hfc]
        exact List.mem_map_of_mem Prod.fst hf
      rw [lookupCol_applyAll_ne rest _ c hkeys, ← heq]
      exact lookupCol_applyRange_same c lo hi t
    · have hne : e.1 ≠ c := by
        intro h
        apply hnd.1
        rw [h]
        have : (c, lo, hi).1 ∈ rest.map Prod.fst := List.mem_map_of_mem Prod.fst hrest
        simpa using this
      rw [ih _ c lo hi hnd.2 hrest]
      rw [lookupCol_applyRange_ne c e.1 e.2.1 e.2.2 t hne]

lemma validateWithCounts_shift : ∀ (rd : List (String × ℚ × ℚ)) (u : Table) (cs : List ℕ),
    rd.foldl
      (fun acc e =>
        (applyRange e.1 e.2.1 e.2.2 acc.1,
         acc.2 ++ [oorCount e.2.1 e.2.2 (lookupCol acc.1 e.1)]))
      (u, cs)
    = ((validateWithCounts rd u).1, cs ++ (validateWithCounts rd u).2) := by
  intro rd
  induction rd with
  | nil => intro u cs; simp [validateWithCounts]
  | cons e rest ih =>
    intro u cs
    rw [List.foldl_cons]
    rw [ih]
    have hrhs : validateWithCounts (e :: rest) u
        = ((validateWithCounts rest (applyRange e.1 e.2.1 e.2.2 u)).1,
           [oorCount e.2.1 e.2.2 (lookupCol u e.1)]
             ++ (validateWithCounts rest (applyRange e.1 e.2.1 e.2.2 u)).2) := by
      rw [validateWithCounts, List.foldl_cons]
      have := ih (applyRange e.1 e.2.1 e.2.2 u) [oorCount e.2.1 e.2.2 (lookupCol u e.1)]
      simpa [validateWithCounts] using this
    rw [hrhs]
    simp

lemma validateWithCounts_fst : ∀ (rd : List (String × ℚ × ℚ)) (t : Table),
    (validateWithCounts rd t).1 = applyAll rd t := by
  intro rd
  induction rd with
  | nil => intro t; rfl
  | cons e rest ih =>
    intro t
    rw [validateWithCounts, List.foldl_cons, validateWithCounts_shift, applyAll_cons]
    exact ih _

lemma applyRange_shape (c : String) (lo hi : ℚ) (t : Table) :
    (applyRange c lo hi t).map (fun e => (e.1, e.2.length))
      = t.map (fun e => (e.1, e.2.length)) := by
  rw [applyRange, List.map_map]
  apply List.map_congr_left
  intro e _
  by_cases h : e.1 = c
  · simp [h, validateColumn_length]
  · simp [h]

lemma applyAll_shape : ∀ (rd : List (String × ℚ × ℚ)) (t : Table),
    (applyAll rd t).map (fun e => (e.1, e.2.length))
      = t.map (fun e => (e.1, e.2.length)) := by
  intro rd
  induction rd with
  | nil => intro t; rfl
  | cons e rest ih =>
    intro t
    rw [applyAll_cons, ih, applyRange_shape]

lemma applyAll_keys (rd : List (String × ℚ × ℚ)) (t : Table) :
    (applyAll rd t).map Prod.fst = t.map Prod.fst := by
  have h := congrArg (List.map Prod.fst) (applyAll_shape rd t)
  rw [List.map_map, List.map_map] at h
  simpa using h

lemma lookupCol_of_mem : ∀ (t : Table) (e : String × List (Option ℚ)),
    (t.map Prod.fst).Nodup → e ∈ t → lookupCol t e.1 = e.2 := by
  intro t
  induction t with
  | nil => intro e _ he; cases he
  | cons f rest ih =>
    intro e hnd he
    rw [List.map_cons, List.nodup_cons] at hnd
    rcases List.mem_cons.1 he with heq | hrest
    · rw [lookupCol_cons, heq, if_pos (by simp)]
    · have hne : (f.1 == e.1) = false := by
        have : e.1 ∈ rest.map Prod.fst := List.mem_map_of_mem Prod.fst hrest
        have hfe : f.1 ≠ e.1 := fun h => hnd.1 (h ▸ this)
        simpa using hfe
      rw [lookupCol_cons, hne, if_neg (by simp)]
      exact ih e hnd.2 hrest

lemma applyRange_eq_self (c : String) (lo hi : ℚ) (t : Table)
    (h : ∀ e ∈ t, e.1 = c → validateColumn lo hi e.2 = e.2) :
    applyRange c lo hi t = t := by
  rw [applyRange]
  conv_rhs => rw [← List.map_id t]
  apply List.map_congr_left
  intro e he
  by_cases hc : e.1 = c
  · rw [if_pos (by simp [hc]), h e he hc]
    rfl
  · rw [if_neg (by simp [hc])]
    rfl

lemma oorCell_fixCell (lo hi : ℚ) (v : Option ℚ) :
    oorCell lo hi (fixCell lo hi v) = false := by
  rw [fixCell]
  by_cases h : oorCell lo hi v
  · rw [if_pos h]
    rfl
  · rw [if_neg h]
    exact Bool.not_eq_true _ ▸ (by simpa using h)

lemma fixCell_fixCell (lo hi : ℚ) (v : Option ℚ) :
    fixCell lo hi (fixCell lo hi v) = fixCell lo hi v := by
  conv_lhs => rw [fixCell]
  rw [oorCell_fixCell]
  rfl

lemma validateColumn_validateColumn (lo hi : ℚ) (cells : List (Option ℚ)) :
    validateColumn lo hi (validateColumn lo hi cells) = validateColumn lo hi cells := by
  rw [validateColumn, validateColumn, List.map_map]
  apply List.map_congr_left
  intro v _
  exact fixCell_fixCell lo hi v

lemma oorCount_validateColumn (lo hi : ℚ) (cells : List (Option ℚ)) :
    oorCount lo hi (validateColumn lo hi cells) = 0 := by
  rw [oorCount, List.length_eq_zero]
  rw [List.filter_eq_nil_iff]
  intro v hv
  rcases List.mem_map.1 hv with ⟨w, _, hw⟩
  rw [← hw, oorCell_fixCell]
  exact Bool.false_ne_true

lemma validateWithCounts_stable : ∀ (rd : List (String × ℚ × ℚ)) (u : Table),
    (∀ e ∈ rd, applyRange e.1 e.2.1 e.2.2 u = u) →
    (∀ e ∈ rd, oorCount e.2.1 e.2.2 (lookupCol u e.1) = 0) →
    validateWithCounts rd u = (u, List.replicate rd.length 0) := by
  intro rd
  induction rd with
  | nil => intro u _ _; rfl
  | cons e rest ih =>
    intro u h1 h2
    rw [validateWithCounts, List.foldl_cons, validateWithCounts_shift]
    rw [h1 e (List.mem_cons_self e rest), h2 e (List.mem_cons_self e rest)]
    rw [ih u (fun f hf => h1 f (List.mem_cons_of_mem e hf))
          (fun f hf => h2 f (List.mem_cons_of_mem e hf))]
    simp [List.replicate_succ]

/-- Claim C5: for every table and every channel of the range-validation
mapping, after validation every retained value of that channel lies in
its inclusive [min, max] range, every originally in-range value is
unchanged at its row position, and the table keeps exactly the same
columns with the same number of rows in each (cells are invalidated in
place, no row is dropped). -/
theorem c5_range_validation (t : Table) (c : String) (lo hi : ℚ)
    (hmem : (c, lo, hi) ∈ rangeDict) :
    (∀ x : ℚ, some x ∈ lookupCol (preprocess_remove_sensor_errors t) c →
        lo ≤ x ∧ x ≤ hi) ∧
    (∀ i x, (lookupCol t c).getD i none = some x → lo ≤ x → x ≤ hi →
        (lookupCol (preprocess_remove_sensor_errors t) c).getD i none = some x) ∧
    (preprocess_remove_sensor_errors t).map (fun e => (e.1, e.2.length))
      = t.map (fun e => (e.1, e.2.length)) := by
  have hndrd : (rangeDict.map Prod.fst).Nodup := by decide
  have hcol : lookupCol (preprocess_remove_sensor_errors t) c
      = validateColumn lo hi (lookupCol t c) := by
    rw [preprocess_remove_sensor_errors, validateWithCounts_fst]
    exact lookupCol_applyAll_mem rangeDict t c lo hi hndrd hmem
  refine ⟨?_, ?_, ?_⟩
  · intro x hx
    rw [hcol] at hx
    rcases List.mem_map.1 hx with ⟨v, _, hfix⟩
    rw [fixCell] at hfix
    by_cases hoor : oorCell lo hi v
    · rw [if_pos hoor] at hfix
      cases hfix
    · rw [if_neg hoor] at hfix
      rw [hfix] at hoor
      rw [oorCell] at hoor
      simp only [Bool.or_eq_true, decide_eq_true_eq, not_or] at hoor
      exact ⟨not_lt.1 hoor.1, not_lt.1 hoor.2⟩
  · intro i x hgd hlo hhi
    have hilt : i < (lookupCol t c).length := by
      by_contra hge
      rw [List.getD_eq_default _ _ (not_lt.1 hge)] at hgd
      cases hgd
    have hget : (lookupCol t c)[i] = some x := by
      rw [List.getD_eq_getElem _ _ hilt] at hgd
      exact hgd
    have hoor : oorCell lo hi (some x) = false := by
      rw [oorCell]
      simp only [Bool.or_eq_false_iff, decide_eq_false_iff_not]
      exact ⟨not_lt.2 hlo, not_lt.2 hhi⟩
    rw [hcol, validateColumn]
    have hilt2 : i < ((lookupCol t c).map (fixCell lo hi)).length := by
      rw [List.length_map]
      exact hilt
    rw [List.getD_eq_getElem _ _ hilt2, List.getElem_map, hget]
    simp [fixCell, hoor]
  · rw [preprocess_remove_sensor_errors, validateWithCounts_fst]
    exact applyAll_shape rangeDict t

/-- Witness for claim C5 at the first channel of the mapping and a
one-column, one-row table. -/
theorem c5_witness :
    (∀ x : ℚ, some x ∈ lookupCol
        (preprocess_remove_sensor_errors [("ME COPT COND CSW IN TEMP", [some 20])])
        "ME COPT COND CSW IN TEMP" → 0 ≤ x ∧ x ≤ 70) ∧
    (∀ i x, (lookupCol [("ME COPT COND CSW IN TEMP", [some 20])]
        "ME COPT COND CSW IN TEMP").getD i none = some x → 0 ≤ x → x ≤ 70 →
        (lookupCol (preprocess_remove_sensor_errors
            [("ME COPT COND CSW IN TEMP", [some 20])])
          "ME COPT COND CSW IN TEMP").getD i none = some x) ∧
    (preprocess_remove_sensor_errors
        [("ME COPT COND CSW IN TEMP", [some 20])]).map (fun e => (e.1, e.2.length))
      = [("ME COPT COND CSW IN TEMP", [some 20])].map (fun e => (e.1, e.2.length)) :=
  c5_range_validation [("ME COPT COND CSW IN TEMP", [some 20])]
    "ME COPT COND CSW IN TEMP" 0 70 (List.mem_cons_self _ _)

/-- Claim C9: range validation is idempotent — re-running the validation
loop on an already-validated table leaves the table unchanged and
reports a replaced-value count of zero for every channel of the mapping,
because replaced cells are missing markers and missing markers are never
classified as out of range. -/
theorem c9_idempotent (t : Table) (hnd : (t.map Prod.fst).Nodup) :
    validateWithCounts rangeDict (preprocess_remove_sensor_errors t)
      = (preprocess_remove_sensor_errors t, List.replicate rangeDict.length 0) := by
  have hndrd : (rangeDict.map Prod.fst).Nodup := by decide
  have hukeys : (preprocess_remove_sensor_errors t).map Prod.fst = t.map Prod.fst := by
    rw [preprocess_remove_sensor_errors, validateWithCounts_fst]
    exact applyAll_keys rangeDict t
  have hundup : ((preprocess_remove_sensor_errors t).map Prod.fst).Nodup := by
    rw [hukeys]; exact hnd
  have hval : ∀ e ∈ rangeDict,
      lookupCol (preprocess_remove_sensor_errors t) e.1
        = validateColumn e.2.1 e.2.2 (lookupCol t e.1) := by
    intro e he
    rw [preprocess_remove_sensor_errors, validateWithCounts_fst]
    exact lookupCol_applyAll_mem rangeDict t e.1 e.2.1 e.2.2 hndrd (by simpa using he)
  have h1 : ∀ e ∈ rangeDict,
      applyRange e.1 e.2.1 e.2.2 (preprocess_remove_sensor_errors t)
        = preprocess_remove_sensor_errors t := by
    intro e he
    apply applyRange_eq_self
    intro f hf hfc
    have hf2 : lookupCol (preprocess_remove_sensor_errors t) f.1 = f.2 :=
      lookupCol_of_mem _ f hundup hf
    rw [← hf2, hfc, hval e he, validateColumn_validateColumn]
  have h2 : ∀ e ∈ rangeDict,
      oorCount e.2.1 e.2.2 (lookupCol (preprocess_remove_sensor_errors t) e.1) = 0 := by
    intro e he
    rw [hval e he]
    exact oorCount_validateColumn e.2.1 e.2.2 _
  exact validateWithCounts_stable rangeDict _ h1 h2

/-- Witness for claim C9 at a concrete two-column table. -/
theorem c9_witness :
    validateWithCounts rangeDict
        (preprocess_remove_sensor_errors
          [("ME RPM", [some 150, some 50]), ("ME SHAFT POWER", [none])])
      = (preprocess_remove_sensor_errors
          [("ME RPM", [some 150, some 50]), ("ME SHAFT POWER", [none])],
         List.replicate rangeDict.length 0) :=
  c9_idempotent [("ME RPM", [some 150, some 50]), ("ME SHAFT POWER", [none])]
    (by decide)

/-! ### Claim C1: perfectly alternating windows -/

lemma countPair_diag (s : List ℕ) (hne : ∀ p ∈ s.zip s.tail, p.1 ≠ p.2) (i : ℕ) :
    countPair s i i = 0 := by
  rw [countPair, List.length_eq_zero, List.filter_eq_nil_iff]
  intro p hp hbeq
  simp only [Bool.and_eq_true, beq_iff_eq] at hbeq
  exact hne p hp (by rw [hbeq.1, hbeq.2])

lemma countPair_pos (s : List ℕ) (i j : ℕ) (hmem : (i, j) ∈ s.zip s.tail) :
    1 ≤ countPair s i j := by
  rw [countPair]
  have hmf : (i, j) ∈ (s.zip s.tail).filter (fun p => p.1 == i && p.2 == j) := by
    rw [List.mem_filter]
    exact ⟨hmem, by simp⟩
  exact List.length_pos.2 (List.ne_nil_of_mem hmf)

lemma alternating_pairs (s : List ℕ) (h : Alternating01 s) (hlen : 3 ≤ s.length) :
    (0, 1) ∈ s.zip s.tail ∧ (1, 0) ∈ s.zip s.tail := by
  rcases s with _ | ⟨a, _ | ⟨b, _ | ⟨c, rest⟩⟩⟩
  · simp at hlen
  · simp at hlen
  · simp at hlen
  · have ha : a < 2 := h.1 a (by simp)
    have hb : b < 2 := h.1 b (by simp)
    have hc : c < 2 := h.1 c (by simp)
    have hab : a ≠ b := h.2 (a, b) (by simp)
    have hbc : b ≠ c := h.2 (b, c) (by simp)
    have hcases : (a = 0 ∧ b = 1 ∧ c = 0) ∨ (a = 1 ∧ b = 0 ∧ c = 1) := by omega
    rcases hcases with ⟨rfl, rfl, rfl⟩ | ⟨rfl, rfl, rfl⟩
    · exact ⟨by simp, by simp⟩
    · exact ⟨by simp, by simp⟩

lemma alternating_dedup_two (s : List ℕ) (h : Alternating01 s) (hlen : 3 ≤ s.length) :
    s.dedup.length = 2 := by
  obtain ⟨hp01, hp10⟩ := alternating_pairs s h hlen
  have h0 : 0 ∈ s := (List.of_mem_zip hp01).1
  have h1 : 1 ∈ s := (List.of_mem_zip hp10).1
  have hfin : s.toFinset = ({0, 1} : Finset ℕ) := by
    ext x
    simp only [List.mem_toFinset, Finset.mem_insert, Finset.mem_singleton]
    constructor
    · intro hx
      have := h.1 x hx
      omega
    · rintro (rfl | rfl)
      · exact h0
      · exact h1
  have hcard := List.card_toFinset s
  rw [hfin] at hcard
  simpa using hcard.symm

lemma rowNormalize_two (A B : ℕ) (hA : 1 ≤ A) (hB : 1 ≤ B) :
    rowNormalize [[0, A], [B, 0]] = [[0, 1], [1, 0]] := by
  have hAq : ((A : ℕ) : ℚ) ≠ 0 := Nat.cast_ne_zero.2 (by omega)
  have hBq : ((B : ℕ) : ℚ) ≠ 0 := Nat.cast_ne_zero.2 (by omega)
  rw [rowNormalize]
  simp only [List.map_cons, List.map_nil, List.sum_cons, List.sum_nil,
    Nat.add_zero, Nat.zero_add]
  rw [if_pos (by omega : 0 < A), if_pos (by omega : 0 < B)]
  simp [div_self hAq, div_self hBq]

lemma alternating_analysis (s : List ℕ) (h : Alternating01 s) (hlen : 3 ≤ s.length) :
    offDiagDominant (transCount s 2) ∧
    binarize (rowNormalize (transCount s 2)) = [[false, true], [true, false]] ∧
    (connectedComponents4 (binarize (rowNormalize (transCount s 2)))).map List.length
      = [1, 1] ∧
    windowLabelOf s = 1 := by
  obtain ⟨hp01, hp10⟩ := alternating_pairs s h hlen
  have h00 : countPair s 0 0 = 0 := countPair_diag s h.2 0
  have h11 : countPair s 1 1 = 0 := countPair_diag s h.2 1
  have h01 : 1 ≤ countPair s 0 1 := countPair_pos s 0 1 hp01
  have h10 : 1 ≤ countPair s 1 0 := countPair_pos s 1 0 hp10
  have htrans : transCount s 2
      = [[countPair s 0 0, countPair s 0 1], [countPair s 1 0, countPair s 1 1]] := rfl
  have htrans2 : transCount s 2
      = [[0, countPair s 0 1], [countPair s 1 0, 0]] := by
    rw [htrans, h00, h11]
  have hd0 : decide ((0 : ℚ) < 0) = false := decide_eq_false (lt_irrefl 0)
  have hd1 : decide ((0 : ℚ) < 1) = true := decide_eq_true one_pos
  have hbin : binarize [[0, 1], [1, 0]] = [[false, true], [true, false]] := by
    rw [binarize]
    simp only [List.map_cons, List.map_nil, hd0, hd1]
  have hB : binarize (rowNormalize (transCount s 2)) = [[false, true], [true, false]] := by
    rw [htrans2, rowNormalize_two _ _ h01 h10]
    exact hbin
  have hcc : connectedComponents4 [[false, true], [true, false]]
      = [[(0, 1)], [(1, 0)]] := rfl
  have hmaplen : (connectedComponents4
      (binarize (rowNormalize (transCount s 2)))).map List.length = [1, 1] := by
    rw [hB, hcc]
    rfl
  refine ⟨?_, hB, hmaplen, ?_⟩
  · rw [htrans2]
    intro i hi
    simp only [List.length_cons, List.length_nil] at hi
    interval_cases i
    · simp only [List.getD_cons_zero, List.sum_cons, List.sum_nil]
      omega
    · simp only [List.getD_cons_succ, List.getD_cons_zero, List.sum_cons, List.sum_nil]
      omega
  · have hr : s.dedup.length = 2 := alternating_dedup_two s h hlen
    rw [windowLabelOf.eq_def, hr]
    rw [if_neg (by omega : ¬ (2 = 1))]
    rw [hmaplen]
    rfl

/-- Claim C1 as stated is false in its connected-components part: for
the perfectly alternating window `[0,1,0,1]` the binarised matrix is the
non-self-looping 2-node adjacency matrix, but `cv2.connectedComponents`
with 4-connectivity operates on it as an image whose two foreground
pixels `(0,1)` and `(1,0)` touch only at a corner, so it finds **two**
one-pixel components — the two nodes are not placed in one component.
The window label is 1 only as the first-won tie-break of `np.argmax`
over the equal component sizes. -/
theorem c1_counterexample :
    (connectedComponents4
        (binarize (rowNormalize (transCount [0, 1, 0, 1] 2)))).length = 2 ∧
    windowLabelOf [0, 1, 0, 1] = 1 := by
  have h := alternating_analysis [0, 1, 0, 1] ⟨by decide, by decide⟩ (by decide)
  constructor
  · have hm := h.2.2.1
    have hlm := congrArg List.length hm
    rw [List.length_map] at hlm
    simpa using hlm
  · exact h.2.2.2

/-- Claim C1 (amended): for every window whose cluster-label sequence
perfectly alternates between the two states 0 and 1 (length at least 3,
so both transition directions occur), the transition-count matrix is
off-diagonal dominant and binarises to the non-self-looping 2-node
adjacency matrix `[[0,1],[1,0]]`; but the 4-connected
connected-components step, applied to that matrix as a 2-D image, yields
two single-pixel components (sizes `[1, 1]`), and the window's label is
1, the first component under `np.argmax`'s first-won tie-break — not
because both nodes share one component. -/
theorem c1_alternating_window (s : List ℕ) (h : Alternating01 s) (hlen : 3 ≤ s.length) :
    offDiagDominant (transCount s 2) ∧
    binarize (rowNormalize (transCount s 2)) = [[false, true], [true, false]] ∧
    (connectedComponents4 (binarize (rowNormalize (transCount s 2)))).map List.length
      = [1, 1] ∧
    windowLabelOf s = 1 :=
  alternating_analysis s h hlen

/-- Witness for the amended claim C1 on the alternating window `[1,0,1]`. -/
theorem c1_witness :
    offDiagDominant (transCount [1, 0, 1] 2) ∧
    binarize (rowNormalize (transCount [1, 0, 1] 2)) = [[false, true], [true, false]] ∧
    (connectedComponents4 (binarize (rowNormalize (transCount [1, 0, 1] 2)))).map
        List.length = [1, 1] ∧
    windowLabelOf [1, 0, 1] = 1 :=
  c1_alternating_window [1, 0, 1] ⟨by decide, by decide⟩ (by decide)

/-! ### Claim C2: flat smoothed series -/

lemma ewm_length (alpha : ℚ) (xs : List ℚ) : (ewm alpha xs).length = xs.length := by
  simp [ewm]

lemma ewm_const (alpha : ℚ) (halpha : alpha ≤ 1) (xs : List ℚ) (c : ℚ)
    (h : ∀ x ∈ xs, x = c) : ∀ y ∈ ewm alpha xs, y = c := by
  intro y hy
  rw [ewm] at hy
  rcases List.mem_map.1 hy with ⟨t, ht, hyt⟩
  rw [List.mem_range] at ht
  have hterm : ∀ i ∈ List.range (t+1),
      (1 - alpha)^i * xs.getD (t - i) 0 = (1 - alpha)^i * c := by
    intro i _
    congr 1
    have hlt : t - i < xs.length := lt_of_le_of_lt (Nat.sub_le t i) ht
    rw [List.getD_eq_getElem _ _ hlt]
    exact h _ (List.getElem_mem hlt)
  have hnum : ((List.range (t+1)).map (fun i => (1 - alpha)^i * xs.getD (t - i) 0)).sum
      = ((List.range (t+1)).map (fun i => (1 - alpha)^i * c)).sum := by
    rw [List.map_congr_left hterm]
  have hfact : ((List.range (t+1)).map (fun i => (1 - alpha)^i * c)).sum
      = ((List.range (t+1)).map (fun i => (1 - alpha)^i)).sum * c := by
    rw [← List.sum_map_mul_right]
  have hpos : 0 < ((List.range (t+1)).map (fun i => (1 - alpha)^i)).sum := by
    have h1mem : (1 : ℚ) ∈ (List.range (t+1)).map (fun i => (1 - alpha)^i) := by
      refine List.mem_map.2 ⟨0, by simp, by norm_num⟩
    have hge : ∀ b ∈ (List.range (t+1)).map (fun i => (1 - alpha)^i), 0 ≤ b := by
      intro b hb
      rcases List.mem_map.1 hb with ⟨i, _, hbi⟩
      rw [← hbi]
      exact pow_nonneg (by linarith) i
    calc (0 : ℚ) < 1 := one_pos
    _ ≤ _ := List.single_le_sum hge 1 h1mem
  rw [← hyt, hnum, hfact, mul_comm, mul_div_assoc, div_self (ne_of_gt hpos), mul_one]

lemma windowStarts_le (L stp len : ℕ) (s : ℕ) (hs : s ∈ windowStarts L stp len) :
    s + L ≤ len := by
  by_cases hcond : 1 ≤ stp ∧ L ≤ len
  · rw [windowStarts, if_pos hcond] at hs
    rcases List.mem_map.1 hs with ⟨k, hk, rfl⟩
    rw [List.mem_range] at hk
    have hk2 : k ≤ (len - L) / stp := by omega
    have hmul : k * stp ≤ ((len - L) / stp) * stp := Nat.mul_le_mul_right _ hk2
    have hdm : ((len - L) / stp) * stp ≤ len - L := Nat.div_mul_le_self _ _
    omega
  · rw [windowStarts, if_neg hcond] at hs
    cases hs

lemma windowsOf_mem_length (L stp : ℕ) (xs : List ℚ) (w : List ℚ)
    (hw : w ∈ windowsOf L stp xs) : w.length = L := by
  rw [windowsOf] at hw
  rcases List.mem_map.1 hw with ⟨s, hs, rfl⟩
  have hle := windowStarts_le L stp xs.length s hs
  rw [List.length_take, List.length_drop]
  omega

lemma windowsOf_mem_subset (L stp : ℕ) (xs : List ℚ) (w : List ℚ)
    (hw : w ∈ windowsOf L stp xs) : ∀ x ∈ w, x ∈ xs := by
  rw [windowsOf] at hw
  rcases List.mem_map.1 hw with ⟨s, _, rfl⟩
  intro x hx
  exact List.drop_subset s xs (List.take_subset L _ hx)

lemma windowsOf_length (L : ℕ) (xs : List ℚ) (hL : L ≤ xs.length) :
    (windowsOf L 1 xs).length = xs.length - L + 1 := by
  rw [windowsOf, windowStarts, if_pos ⟨le_refl 1, hL⟩]
  simp [Nat.div_one]

lemma replicate_dedup_len (n : ℕ) (hn : n ≠ 0) :
    ((List.replicate n (0 : ℕ)).dedup).length = 1 := by
  induction n with
  | zero => exact absurd rfl hn
  | succ m ih =>
    cases m with
    | zero => decide
    | succ k =>
      rw [List.replicate_succ, List.dedup_cons_of_mem
        (List.mem_replicate.2 ⟨Nat.succ_ne_zero _, rfl⟩)]
      exact ih (Nat.succ_ne_zero k)

lemma clusterConst_single (w : List ℚ) (hne : w ≠ []) :
    ((clusterConst w).dedup).length = 1 := by
  rw [clusterConst]
  exact replicate_dedup_len w.length (fun h0 => hne (List.length_eq_zero.1 h0))

lemma windowLabelOf_single (states : List ℕ) (h : states.dedup.length = 1) :
    windowLabelOf states = 1 := by
  rw [windowLabelOf.eq_def, h, if_pos rfl]

lemma coveringLabels_ne_nil (seq : List ℕ) (W L t T : ℕ)
    (hW : W = T - L + 1) (hL : 1 ≤ L) (hLT : L ≤ T) (ht : t < T) :
    coveringLabels seq W L t ≠ [] := by
  rw [coveringLabels]
  intro hemp
  have hfil := List.map_eq_nil_iff.1 hemp
  have hWpos : 1 ≤ W := by omega
  have hWz : (W : ℤ) = (T : ℤ) - (L : ℤ) + 1 := by
    rw [hW]
    push_cast [Nat.cast_sub hLT]
    ring
  have hi0z : ((min t (W - 1) : ℕ) : ℤ) = min (t : ℤ) ((W : ℤ) - 1) := by
    push_cast [Nat.cast_min, Nat.cast_sub hWpos]
    rfl
  have hmem : min t (W - 1) ∈ (List.range W).filter (fun i : ℕ =>
      decide (max 0 ((t : ℤ) - (L : ℤ) + 1) ≤ (i : ℤ)) &&
      decide ((i : ℤ) ≤ min (t : ℤ) ((W : ℤ) - 1))) := by
    rw [List.mem_filter, List.mem_range]
    refine ⟨by omega, ?_⟩
    rw [Bool.and_eq_true, decide_eq_true_eq, decide_eq_true_eq, hi0z]
    have htz : (t : ℤ) < (T : ℤ) := by exact_mod_cast ht
    have hLz : (1 : ℤ) ≤ (L : ℤ) := by exact_mod_cast hL
    have hLTz : (L : ℤ) ≤ (T : ℤ) := by exact_mod_cast hLT
    constructor
    · rw [hWz]
      omega
    · omega
  rw [hfil] at hmem
  cases hmem

lemma labelAt_const_one (W L t : ℕ) (seq : List ℕ) (hseq : seq = List.replicate W 1)
    (hne : coveringLabels seq W L t ≠ []) : labelAt seq W L t = 1 := by
  have hall : ∀ x ∈ coveringLabels seq W L t, x = 1 := by
    intro x hx
    rw [coveringLabels] at hx
    rcases List.mem_map.1 hx with ⟨i, hi, rfl⟩
    have hiW : i < W := List.mem_range.1 (List.mem_filter.1 hi).1
    rw [hseq]
    have hlt : i < (List.replicate W (1 : ℕ)).length := by
      rw [List.length_replicate]
      exact hiW
    rw [List.getD_eq_getElem _ _ hlt]
    exact List.getElem_replicate 1 hlt
  cases hcl : coveringLabels seq W L t with
  | nil => exact absurd hcl hne
  | cons a tl =>
    have ha : a = 1 := hall a (by rw [hcl]; exact List.mem_cons_self a tl)
    have hallb : (a :: tl).all (fun x => x == a) = true := by
      rw [List.all_eq_true]
      intro x hx
      have hx1 : x = 1 := hall x (by rw [hcl]; exact hx)
      rw [hx1, ha]
      exact beq_self_eq_true 1
    rw [labelAt.eq_def, hcl]
    simp only [hallb, if_true]
    exact ha

/-- Claim C2: for every input series whose exponentially smoothed
version is entirely constant and has length at least the window length
`L ≥ 1`, the segmentation labels every window 1 (a constant window is a
single cluster, the trivially steady case) and the final per-sample
label is 1 at every index.  The hypothesis `hclust` records the sklearn
behaviour the branch of line 554 relies on: `AgglomerativeClustering`
with a positive distance threshold merges a window of identical values
into a single cluster. -/
theorem c2_flat_series (cluster : List ℚ → List ℕ) (alpha : ℚ) (L : ℕ)
    (series : List ℚ) (hL : 1 ≤ L) (hT : L ≤ series.length)
    (hconst : ∃ c, ∀ x ∈ ewm alpha series, x = c)
    (hclust : ∀ w : List ℚ, w ≠ [] → (∀ x ∈ w, ∀ y ∈ w, x = y) →
      ((cluster w).dedup).length = 1) :
    (∀ w ∈ windowsOf L 1 (ewm alpha series), windowLabelOf (cluster w) = 1) ∧
    steady_state_extraction_core cluster alpha L 1 series
      = List.replicate series.length 1 := by
  obtain ⟨c, hc⟩ := hconst
  have hsmlen : (ewm alpha series).length = series.length := ewm_length alpha series
  have hwin1 : ∀ w ∈ windowsOf L 1 (ewm alpha series), windowLabelOf (cluster w) = 1 := by
    intro w hw
    have hwlen : w.length = L := windowsOf_mem_length L 1 _ w hw
    have hwne : w ≠ [] := by
      intro h0
      rw [h0] at hwlen
      simp at hwlen
      omega
    have hwconst : ∀ x ∈ w, ∀ y ∈ w, x = y := by
      intro x hx y hy
      rw [hc x (windowsOf_mem_subset L 1 _ w hw x hx),
          hc y (windowsOf_mem_subset L 1 _ w hw y hy)]
    exact windowLabelOf_single _ (hclust w hwne hwconst)
  refine ⟨hwin1, ?_⟩
  have hseq : (windowsOf L 1 (ewm alpha series)).map (fun w => windowLabelOf (cluster w))
      = List.replicate (windowsOf L 1 (ewm alpha series)).length 1 := by
    apply List.eq_replicate_iff.2
    refine ⟨by rw [List.length_map], ?_⟩
    intro b hb
    rcases List.mem_map.1 hb with ⟨w, hw, rfl⟩
    exact hwin1 w hw
  have hWT : (windowsOf L 1 (ewm alpha series)).length = series.length - L + 1 := by
    rw [windowsOf_length L _ (by rw [hsmlen]; exact hT), hsmlen]
  rw [steady_state_extraction_core, hseq]
  apply List.eq_replicate_iff.2
  refine ⟨by rw [List.length_map, List.length_range, hsmlen], ?_⟩
  intro b hb
  rcases List.mem_map.1 hb with ⟨t, ht, rfl⟩
  rw [List.mem_range, hsmlen] at ht
  apply labelAt_const_one _ _ _ _ rfl
  exact coveringLabels_ne_nil _ _ L t series.length hWT hL hT ht

/-- Witness for claim C2: the constant series `[7,7,7,7,7]` with window
length 3 and the single-cluster clustering model; every window is
labelled 1 and the final labels are all 1. -/
theorem c2_witness :
    (∀ w ∈ windowsOf 3 1 (ewm 1 [7, 7, 7, 7, 7]), windowLabelOf (clusterConst w) = 1) ∧
    steady_state_extraction_core clusterConst 1 3 1 [7, 7, 7, 7, 7]
      = List.replicate 5 1 :=
  c2_flat_series clusterConst 1 3 [7, 7, 7, 7, 7] (by decide) (by decide)
    ⟨7, ewm_const 1 le_rfl [7, 7, 7, 7, 7] 7 (by simp)⟩
    (fun w hne _ => clusterConst_single w hne)

end Pipeline
